import Mathlib

/-
Shallow embedding of src/webvttparser.cc, the WebVTT parser of
provizio/libwebm (namespace libwebvtt).

Modelling conventions:
* C++ `std::string` values are modelled as `List Char`.  `std::string`'s
  `operator[]` yields the NUL character at position `size()`; it is modelled
  by `at0`, which yields NUL at every out-of-range position (the code never
  reads past `size()`).
* The character source (`Reader`) together with the parser's one-character
  pushback slot (`unget_`, -1 meaning empty) is modelled as `PState`: an
  optional ungot character plus the finite list of characters the reader has
  yet to deliver.  End-of-stream is reached when both are exhausted.
* C++ `int` and `long long` values are modelled as `Int`.  Every division
  performed by the code happens on non-negative operands, where C++'s
  truncating division agrees with Lean's `Int` division.
* Loops are modelled either structurally over the remaining character list
  or with an explicit fuel argument chosen at the call site to strictly
  exceed the loop's iteration count (each iteration of the corresponding
  C++ loop consumes at least one character / list element, so the supplied
  fuel is never exhausted); every function below is total and executable.
* Functions returning `int` status codes keep that convention: 0 is
  success, a negative value an error, positive end-of-stream.
-/

namespace Libwebvtt

def kNUL : Char := '\x00'

def kSPACE : Char := ' '

def kTAB : Char := '\x09'

def kLF : Char := '\x0A'

def kCR : Char := '\x0D'

/-- Maximum representable 32-bit signed value, `INT_MAX` from climits. -/
def INT_MAX : Int := 2147483647

/-- Model of `std::string::operator[]`: the character at position `i`,
NUL at `size()` (and at any larger position, which the code never reads). -/
def at0 (line : List Char) (i : Nat) : Char :=
  line.getD i kNUL

/-- Model of C `isdigit` for the ASCII characters the parser feeds it. -/
def isdigit (c : Char) : Bool :=
  48 ≤ c.toNat && c.toNat ≤ 57

/-- Time value type of webvttparser.h: hours, minutes, seconds and
milliseconds, each a C++ `int` (modelled as `Int`). -/
structure Time where
  hours : Int
  minutes : Int
  seconds : Int
  milliseconds : Int
deriving DecidableEq, Repr

/-- Normalized field ranges of the data model: non-negative hours, minutes
and seconds in [0,59], milliseconds in [0,999]. -/
def Time.normalized (t : Time) : Prop :=
  0 ≤ t.hours ∧
  0 ≤ t.minutes ∧ t.minutes ≤ 59 ∧
  0 ≤ t.seconds ∧ t.seconds ≤ 59 ∧
  0 ≤ t.milliseconds ∧ t.milliseconds ≤ 999

/-- `Time::operator<` (webvttparser.cc lines 583-603): lexicographic
comparison of hours, minutes, seconds, milliseconds. -/
def Time.lt (t rhs : Time) : Bool :=
  if t.hours < rhs.hours then true
  else if t.hours > rhs.hours then false
  else if t.minutes < rhs.minutes then true
  else if t.minutes > rhs.minutes then false
  else if t.seconds < rhs.seconds then true
  else if t.seconds > rhs.seconds then false
  else decide (t.milliseconds < rhs.milliseconds)

/-- `Time::presentation()` (webvttparser.cc lines 617-623): the time as a
single count of milliseconds. -/
def Time.presentation (t : Time) : Int :=
  let h : Int := 1000 * 3600 * t.hours
  let m : Int := 1000 * 60 * t.minutes
  let s : Int := 1000 * t.seconds
  h + m + s + t.milliseconds

/-- `Time::presentation(presentation_t d)` (webvttparser.cc lines 625-645):
rebuild the four fields from a presentation value; a negative input is an
error and yields the zero time. -/
def Time.fromPresentation (d : Int) : Time :=
  if d < 0 then
    { hours := 0, minutes := 0, seconds := 0, milliseconds := 0 }
  else
    let seconds0 := d / 1000
    let milliseconds := d - 1000 * seconds0
    let minutes0 := seconds0 / 60
    let seconds := seconds0 - 60 * minutes0
    let hours := minutes0 / 60
    let minutes := minutes0 - 60 * hours
    { hours := hours, minutes := minutes, seconds := seconds,
      milliseconds := milliseconds }

/-- Inner while-loop of `Parser::ParseNumber` (webvttparser.cc lines
557-565), recursing over the remaining characters: accumulates digits into
`val`, returning -1 as soon as the accumulated value exceeds `INT_MAX`,
together with the number of digits consumed (the loop leaves `idx` at the
offending digit when it overflows). -/
def parseNumberLoop : List Char → Int → Int × Nat
  | [], val => (val, 0)
  | c :: rest, val =>
    if isdigit c then
      let val := val * 10 + ((c.toNat : Int) - 48)
      if val > INT_MAX then (-1, 0)
      else
        let r := parseNumberLoop rest val
        (r.1, r.2 + 1)
    else (val, 0)

/-- `Parser::ParseNumber` (webvttparser.cc lines 547-568): requires a digit
at `idx` (else -1), scans the digit run into a value that must not exceed
`INT_MAX` (else -1); returns the value together with the advanced index. -/
def ParseNumber (line : List Char) (idx : Nat) : Int × Nat :=
  if idx ≥ line.length then (-1, idx)
  else if ¬ isdigit (at0 line idx) then (-1, idx)
  else
    let r := parseNumberLoop (line.drop idx) 0
    (r.1, idx + r.2)

/-- Specification-side view: the maximal digit run starting at `idx`. -/
def digitRun (line : List Char) (idx : Nat) : List Char :=
  (line.drop idx).takeWhile isdigit

/-- Specification-side view: decimal value of a digit run. -/
def decimalVal (ds : List Char) : Nat :=
  ds.foldl (fun a c => 10 * a + (c.toNat - 48)) 0

/-- Reference fold mirroring the loop accumulator over a full digit list. -/
def extendVal (val : Int) (ds : List Char) : Int :=
  ds.foldl (fun a c => a * 10 + ((c.toNat : Int) - 48)) val

/-- Leading-whitespace loop of `Parser::ParseTime` (webvttparser.cc lines
347-351) over the remaining characters: the number of leading SPACE/TAB
characters.  (The C++ loop also stops at a NUL character, but NUL is not a
SPACE or TAB, so the count is the same.) -/
def skipWSCount : List Char → Nat
  | [] => 0
  | c :: rest => if c = kSPACE ∨ c = kTAB then skipWSCount rest + 1 else 0

/-- Milliseconds scan and trailing-junk check of `Parser::ParseTime`
(webvttparser.cc lines 440-469), starting at the position reached after the
seconds value: without a FULL STOP the milliseconds are 0; otherwise a
number < 1000 follows, scaled by its magnitude; then the next character
must be NUL, SPACE or TAB. -/
def ParseTimeMS (line : List Char) (idx : Nat) (t : Time) : Int × Nat × Time :=
  let r :=
    if at0 line idx ≠ '.' then (0, idx, { t with milliseconds := 0 })
    else
      let idx := idx + 1
      let pn := ParseNumber line idx
      if pn.1 < 0 then (pn.1, pn.2, t)
      else if pn.1 ≥ 1000 then (-1, pn.2, t)
      else if pn.1 < 10 then (0, pn.2, { t with milliseconds := pn.1 * 100 })
      else if pn.1 < 100 then (0, pn.2, { t with milliseconds := pn.1 * 10 })
      else (0, pn.2, { t with milliseconds := pn.1 })
  if r.1 ≠ 0 then r
  else
    let c := at0 line r.2.1
    if c ≠ kNUL ∧ c ≠ kSPACE ∧ c ≠ kTAB then (-1, r.2.1, r.2.2)
    else (0, r.2.1, r.2.2)

/-- `Parser::ParseTime` (webvttparser.cc lines 332-470): scans one of the
three timestamp forms SS[.mmm], MM:SS[.mmm], HH:MM:SS[.mmm], writing the
components into `t` and returning the status, the advanced index and the
(possibly partially) updated time. -/
def ParseTime (line : List Char) (idx : Nat) (t : Time) : Int × Nat × Time :=
  if idx ≥ line.length then (-1, idx, t)
  else
    let idx := idx + skipWSCount (line.drop idx)
    let pn1 := ParseNumber line idx
    let val := pn1.1
    let idx := pn1.2
    if val < 0 then (val, idx, t)
    else if at0 line idx = ':' then
      let first_val := val
      let idx := idx + 1
      let pn2 := ParseNumber line idx
      let val := pn2.1
      let idx := pn2.2
      if val < 0 then (val, idx, t)
      else if val ≥ 60 then (-1, idx, t)
      else if at0 line idx = ':' then
        let t := { t with hours := first_val, minutes := val }
        let idx := idx + 1
        let pn3 := ParseNumber line idx
        let val := pn3.1
        let idx := pn3.2
        if val < 0 then (val, idx, t)
        else if val ≥ 60 then (-1, idx, t)
        else ParseTimeMS line idx { t with seconds := val }
      else
        if first_val ≥ 60 then (-1, idx, t)
        else ParseTimeMS line idx
          { t with hours := 0, minutes := first_val, seconds := val }
    else
      let seconds0 := val
      let minutes0 := seconds0 / 60
      let seconds1 := seconds0 - minutes0 * 60
      let hours := minutes0 / 60
      let minutes := minutes0 - hours * 60
      ParseTimeMS line idx
        { t with hours := hours, minutes := minutes, seconds := seconds1 }

/-- Modelled from the spec (webvttparser.h is not under src/): a Setting is
a NAME/VALUE pair of text tokens. -/
structure Setting where
  name : List Char
  value : List Char
deriving DecidableEq, Repr

/-- Modelled from the spec (webvttparser.h is not under src/): a Cue record
holds the identifier, start/stop time, settings sequence and payload
lines. -/
structure Cue where
  identifier : List Char
  start_time : Time
  stop_time : Time
  settings : List Setting
  payload : List (List Char)
deriving DecidableEq, Repr

/-- Parser session state: the one-character pushback buffer (`unget_`, -1
meaning empty, modelled as `Option Char`) together with the characters the
external Reader has yet to deliver.  The character source is modelled as a
finite list delivering a clean end-of-stream when exhausted. -/
structure PState where
  unget : Option Char
  input : List Char
deriving DecidableEq, Repr

/-- Number of characters still obtainable from a parser state. -/
def csize (st : PState) : Nat :=
  st.input.length + (match st.unget with | some _ => 1 | none => 0)

/-- `Parser::GetChar` (webvttparser.cc lines 178-186): deliver the ungot
character first (clearing the buffer), else the next reader character;
`none` signals end-of-stream. -/
def GetChar (st : PState) : Option Char × PState :=
  match st.unget with
  | some c => (some c, { unget := none, input := st.input })
  | none =>
    match st.input with
    | [] => (none, st)
    | c :: rest => (some c, { unget := none, input := rest })

/-- `Parser::UngetChar` (webvttparser.cc lines 188-190): store one
character for redelivery. -/
def UngetChar (c : Char) (st : PState) : PState :=
  { unget := some c, input := st.input }

/-- `Parser::ParseBOM` (webvttparser.cc lines 192-220), the 3-iteration
loop unrolled: a first byte that does not match the BOM is pushed back
(success, no BOM); a BOM once started must be completed; end-of-stream
inside the scan returns 1. -/
def ParseBOM (st : PState) : Int × PState :=
  match GetChar st with
  | (none, st1) => (1, st1)
  | (some c, st1) =>
    if c ≠ Char.ofNat 0xEF then (0, UngetChar c st1)
    else
      match GetChar st1 with
      | (none, st2) => (1, st2)
      | (some c2, st2) =>
        if c2 ≠ Char.ofNat 0xBB then (-1, st2)
        else
          match GetChar st2 with
          | (none, st3) => (1, st3)
          | (some c3, st3) =>
            if c3 ≠ Char.ofNat 0xBF then (-1, st3)
            else (0, st3)

/-- `Parser::ParseLineTerminator` (webvttparser.cc lines 222-254): `c` is
the character that opened the terminator; LF ends at once, CR peeks one
character and pushes it back unless it is the LF of a CRLF pair. -/
def ParseLineTerminator (c : Char) (st : PState) : Int × PState :=
  if c = kLF then (0, st)
  else if c ≠ kCR then (-1, st)
  else
    match GetChar st with
    | (none, st1) => (0, st1)
    | (some c1, st1) => if c1 = kLF then (0, st1) else (0, UngetChar c1 st1)

/-- Character loop of `Parser::ParseLine` (webvttparser.cc lines 256-280),
with fuel: each iteration consumes one character, so any fuel above
`csize st` is adequate and the fuel-0 branch (status -2) is unreachable
from `ParseLine`.  Returns status, accumulated line, new state. -/
def parseLineAux : Nat → PState → List Char → Int × List Char × PState
  | 0, st, acc => (-2, acc, st)
  | fuel + 1, st, acc =>
    match GetChar st with
    | (none, st1) => (if acc.isEmpty then 1 else 0, acc, st1)
    | (some c, st1) =>
      if c = kLF ∨ c = kCR then
        let r := ParseLineTerminator c st1
        if r.1 < 0 then (r.1, acc, r.2) else (0, acc, r.2)
      else parseLineAux fuel st1 (acc ++ [c])

/-- `Parser::ParseLine` (webvttparser.cc lines 256-280). -/
def ParseLine (st : PState) : Int × List Char × PState :=
  parseLineAux (csize st + 1) st []

/-- Blank-line-skipping loop at the top of `Parser::Parse` (webvttparser.cc
lines 112-120), with fuel: each iteration that continues consumed at least
one character (an empty line with status 0 ends in a terminator). -/
def skipBlankAux : Nat → PState → Int × List Char × PState
  | 0, st => (-2, [], st)
  | fuel + 1, st =>
    let r := ParseLine st
    if r.1 ≠ 0 then r
    else if ¬ r.2.1.isEmpty then (0, r.2.1, r.2.2)
    else skipBlankAux fuel r.2.2

/-- Wrapper supplying adequate fuel for the blank-line loop. -/
def skipBlankLines (st : PState) : Int × List Char × PState :=
  skipBlankAux (csize st + 1) st

/-- Payload loop of `Parser::Parse` (webvttparser.cc lines 160-170), with
fuel: each iteration that continues consumed a non-empty line. -/
def payloadAux : Nat → PState → List (List Char) →
    Int × List (List Char) × PState
  | 0, st, p => (-2, p, st)
  | fuel + 1, st, p =>
    let r := ParseLine st
    if r.1 < 0 then (r.1, p, r.2.2)
    else if r.2.1.isEmpty then (0, p, r.2.2)
    else payloadAux fuel r.2.2 (p ++ [r.2.1])

/-- Model of `std::string::find("-->")` (webvttparser.cc lines 127, 139):
index of the first occurrence of the arrow token, `none` for npos. -/
def findArrow : List Char → Option Nat
  | [] => none
  | c :: rest =>
    if c = '-' ∧ rest.take 2 = ['-', '>'] then some 0
    else (findArrow rest).map (· + 1)

/-- Junk-detection loop of `Parser::ParseTimingsLine` (webvttparser.cc
lines 306-310), over the characters between the start time and the arrow:
only SPACE/TAB may appear before the NUL sentinel. -/
def checkJunk : List Char → Int
  | [] => 0
  | c :: rest =>
    if c = kNUL then 0
    else if c ≠ kSPACE ∧ c ≠ kTAB then -1
    else checkJunk rest

/-- NAME-token loop of `Parser::ParseSettings` (webvttparser.cc lines
507-521): scan up to the colon; NUL, SPACE or TAB inside the NAME is an
error.  Returns status, characters consumed, and the (possibly partial)
name; an exhausted list stands for the NUL sentinel. -/
def scanName : List Char → Int × Nat × List Char
  | [] => (-1, 0, [])
  | c :: rest =>
    if c = ':' then (0, 0, [])
    else if c = kNUL ∨ c = kSPACE ∨ c = kTAB then (-1, 0, [])
    else
      let r := scanName rest
      (r.1, r.2.1 + 1, c :: r.2.2)

/-- VALUE-token loop of `Parser::ParseSettings` (webvttparser.cc lines
528-540): scan up to NUL/SPACE/TAB; a colon inside the VALUE is an
error. -/
def scanValue : List Char → Int × Nat × List Char
  | [] => (0, 0, [])
  | c :: rest =>
    if c = kNUL ∨ c = kSPACE ∨ c = kTAB then (0, 0, [])
    else if c = ':' then (-1, 0, [])
    else
      let r := scanValue rest
      (r.1, r.2.1 + 1, c :: r.2.2)

/-- SPACE-or-TAB test used by the settings scanner. -/
def isWS (c : Char) : Bool :=
  c = kSPACE || c = kTAB

/-- Outer loop of `Parser::ParseSettings` (webvttparser.cc lines 485-544)
over the remaining characters, with fuel: each iteration that continues
consumed a non-empty NAME, a colon and a non-empty VALUE (at least three
characters), so `rest.length + 1` is always adequate.  The C++ code pushes
an empty Setting before scanning and fills it in place; on error the
partially filled setting remains in the sequence. -/
def settingsLoop : Nat → List Char → List Setting → Int × List Setting
  | 0, _, settings => (-1, settings)
  | fuel + 1, rest, settings =>
    let r1 := rest.dropWhile isWS
    match r1 with
    | [] => (0, settings)
    | c :: _ =>
      if c = kNUL then (0, settings)
      else
        let rn := scanName r1
        if rn.1 < 0 then (-1, settings ++ [⟨rn.2.2, []⟩])
        else if rn.2.2.isEmpty then (-1, settings ++ [⟨rn.2.2, []⟩])
        else
          let r2 := r1.drop (rn.2.1 + 1)
          let rv := scanValue r2
          if rv.1 < 0 then (-1, settings ++ [⟨rn.2.2, rv.2.2⟩])
          else if rv.2.2.isEmpty then (-1, settings ++ [⟨rn.2.2, rv.2.2⟩])
          else settingsLoop fuel (r2.drop rv.2.1) (settings ++ [⟨rn.2.2, rv.2.2⟩])

/-- `Parser::ParseSettings` (webvttparser.cc lines 472-545): clears the
settings, then scans NAME:VALUE pairs until the NUL sentinel. -/
def ParseSettings (line : List Char) (idx : Nat) : Int × List Setting :=
  if idx ≥ line.length then (-1, [])
  else settingsLoop (line.length + 1) (line.drop idx) []

/-- `Parser::ParseTimingsLine` (webvttparser.cc lines 282-330): place a NUL
sentinel over the arrow, scan the start time, reject junk before the
arrow, append a NUL sentinel at the end of the line, scan the stop time
from 3 characters past the arrow, then scan the settings.  `settings0` is
the current content of the cue's settings, left untouched on the error
paths that return before the settings scan (as the C++ code does). -/
def ParseTimingsLine (line : List Char) (arrow_pos : Nat)
    (start_time stop_time : Time) (settings0 : List Setting) :
    Int × Time × Time × List Setting :=
  if arrow_pos ≥ line.length then (-1, start_time, stop_time, settings0)
  else
    let line1 := line.set arrow_pos kNUL
    let r1 := ParseTime line1 0 start_time
    if r1.1 ≠ 0 then (r1.1, r1.2.2, stop_time, settings0)
    else if checkJunk (line1.drop r1.2.1) ≠ 0 then
      (-1, r1.2.2, stop_time, settings0)
    else
      let line2 := line1 ++ [kNUL]
      let r2 := ParseTime line2 (arrow_pos + 3) stop_time
      if r2.1 ≠ 0 then (r2.1, r1.2.2, r2.2.2, settings0)
      else
        let rs := ParseSettings line2 r2.2.1
        (rs.1, r1.2.2, r2.2.2, rs.2)

/-- First phase of `Parser::Parse` (webvttparser.cc lines 107-152): skip
blank lines, resolve the optional identifier line, locate the arrow token
and parse the timings line.  `Sum.inl` is an early return of `Parse`;
`Sum.inr` carries the updated cue and state into the payload phase. -/
def parseTimingsPhase (st : PState) (cue : Cue) :
    (Int × Option Cue × PState) ⊕ (Cue × PState) :=
  let r := skipBlankLines st
  if r.1 ≠ 0 then Sum.inl (r.1, some cue, r.2.2)
  else
    match findArrow r.2.1 with
    | some off =>
      let cue1 := { cue with identifier := [] }
      let rt := ParseTimingsLine r.2.1 off cue1.start_time cue1.stop_time
        cue1.settings
      let cue2 := { cue1 with
        start_time := rt.2.1
        stop_time := rt.2.2.1
        settings := rt.2.2.2 }
      if rt.1 ≠ 0 then Sum.inl (rt.1, some cue2, r.2.2)
      else Sum.inr (cue2, r.2.2)
    | none =>
      let cue1 := { cue with identifier := r.2.1 }
      let r2 := ParseLine r.2.2
      if r2.1 ≠ 0 then Sum.inl (r2.1, some cue1, r2.2.2)
      else
        match findArrow r2.2.1 with
        | none => Sum.inl (-1, some cue1, r2.2.2)
        | some off =>
          let rt := ParseTimingsLine r2.2.1 off cue1.start_time
            cue1.stop_time cue1.settings
          let cue2 := { cue1 with
            start_time := rt.2.1
            stop_time := rt.2.2.1
            settings := rt.2.2.2 }
          if rt.1 ≠ 0 then Sum.inl (rt.1, some cue2, r2.2.2)
          else Sum.inr (cue2, r2.2.2)

/-- Payload phase of `Parser::Parse` (webvttparser.cc lines 154-175):
clear the payload, collect non-empty lines, and fail if none was
collected. -/
def parsePayloadPhase (st : PState) (cue : Cue) : Int × Option Cue × PState :=
  let r := payloadAux (csize st + 1) st []
  let cue1 := { cue with payload := r.2.1 }
  if r.1 < 0 then (r.1, some cue1, r.2.2)
  else if r.2.1.isEmpty then (-1, some cue1, r.2.2)
  else (0, some cue1, r.2.2)

/-- `Parser::Parse` (webvttparser.cc lines 103-176): a NULL cue pointer
(modelled as `none`) is an immediate error; otherwise extract one cue. -/
def Parse (st : PState) (cue : Option Cue) : Int × Option Cue × PState :=
  match cue with
  | none => (-1, none, st)
  | some cue =>
    match parseTimingsPhase st cue with
    | Sum.inl r => r
    | Sum.inr (cue1, st1) => parsePayloadPhase st1 cue1

/-- Streams containing only blank lines: every pending character is a line
terminator. -/
def blankOnly (st : PState) : Prop :=
  (∀ c ∈ st.input, c = kLF ∨ c = kCR) ∧
  (∀ c, st.unget = some c → c = kLF ∨ c = kCR)

theorem isdigit_bounds (c : Char) (hc : isdigit c = true) :
    48 ≤ c.toNat ∧ c.toNat ≤ 57 := by
  simpa [isdigit] using hc

theorem extendVal_cons (val : Int) (c : Char) (ds : List Char) :
    extendVal val (c :: ds) = extendVal (val * 10 + ((c.toNat : Int) - 48)) ds := by
  simp [extendVal]

theorem extendVal_mono (ds : List Char) :
    ∀ val : Int, (∀ c ∈ ds, isdigit c = true) → 0 ≤ val →
      val ≤ extendVal val ds := by
  induction ds with
  | nil => intro val _ _; simp [extendVal]
  | cons c rest ih =>
    intro val hds hval
    have hc48 : 48 ≤ c.toNat :=
      (isdigit_bounds c (hds c (List.mem_cons_self c rest))).1
    have hstep : val ≤ val * 10 + ((c.toNat : Int) - 48) := by omega
    have hrest := ih (val * 10 + ((c.toNat : Int) - 48))
      (fun d hd => hds d (List.mem_cons_of_mem c hd)) (by omega)
    calc val ≤ val * 10 + ((c.toNat : Int) - 48) := hstep
      _ ≤ extendVal (val * 10 + ((c.toNat : Int) - 48)) rest := hrest
      _ = extendVal val (c :: rest) := (extendVal_cons val c rest).symm

theorem parseNumberLoop_spec (rest : List Char) :
    ∀ val : Int, 0 ≤ val → val ≤ INT_MAX →
      (extendVal val (rest.takeWhile isdigit) ≤ INT_MAX →
        parseNumberLoop rest val =
          (extendVal val (rest.takeWhile isdigit),
           (rest.takeWhile isdigit).length)) ∧
      (INT_MAX < extendVal val (rest.takeWhile isdigit) →
        (parseNumberLoop rest val).1 = -1) := by
  induction rest with
  | nil =>
    intro val h0 hmax
    refine ⟨fun _ => by simp [parseNumberLoop, extendVal], fun hgt => ?_⟩
    exfalso
    simp only [List.takeWhile_nil, extendVal, List.foldl_nil] at hgt
    omega
  | cons c rest ih =>
    intro val h0 hmax
    by_cases hc : isdigit c = true
    · have hc48 : 48 ≤ c.toNat := (isdigit_bounds c hc).1
      have htw : (c :: rest).takeWhile isdigit = c :: rest.takeWhile isdigit := by
        simp [List.takeWhile_cons, hc]
      set v := val * 10 + ((c.toNat : Int) - 48) with hv
      have hv0 : 0 ≤ v := by omega
      have hext : extendVal val ((c :: rest).takeWhile isdigit) =
          extendVal v (rest.takeWhile isdigit) := by
        rw [htw, extendVal_cons, hv]
      by_cases hover : v > INT_MAX
      · have hloop : parseNumberLoop (c :: rest) val = (-1, 0) := by
          simp [parseNumberLoop, hc, ← hv, hover]
        have hbig : INT_MAX < extendVal val ((c :: rest).takeWhile isdigit) := by
          rw [hext]
          have := extendVal_mono (rest.takeWhile isdigit) v
            (fun d hd => List.mem_takeWhile_imp hd) hv0
          omega
        exact ⟨fun hle => absurd hle (by omega), fun _ => by rw [hloop]⟩
      · have hloop : parseNumberLoop (c :: rest) val =
            ((parseNumberLoop rest v).1, (parseNumberLoop rest v).2 + 1) := by
          simp [parseNumberLoop, hc, ← hv, hover]
        have hrec := ih v hv0 (by omega)
        refine ⟨fun hle => ?_, fun hgt => ?_⟩
        · rw [hext] at hle
          rw [hloop, hrec.1 hle, htw]
          simp [extendVal_cons, ← hv]
        · rw [hext] at hgt
          rw [hloop]
          simpa using hrec.2 hgt
    · have htw : (c :: rest).takeWhile isdigit = [] := by
        simp [List.takeWhile_cons, hc]
      refine ⟨fun _ => ?_, fun hgt => ?_⟩
      · simp [parseNumberLoop, hc, htw, extendVal]
      · exfalso
        rw [htw] at hgt
        simp only [extendVal, List.foldl_nil] at hgt
        omega

theorem decimalVal_cast (ds : List Char) :
    ∀ n : Nat, (∀ c ∈ ds, isdigit c = true) →
      ((ds.foldl (fun a c => 10 * a + (c.toNat - 48)) n : Nat) : Int) =
        extendVal (n : Int) ds := by
  induction ds with
  | nil => intro n _; simp [extendVal]
  | cons c rest ih =>
    intro n hds
    have hc : isdigit c = true := hds c (List.mem_cons_self c rest)
    have hc48 : 48 ≤ c.toNat := (isdigit_bounds c hc).1
    have hcast : ((10 * n + (c.toNat - 48) : Nat) : Int) =
        (n : Int) * 10 + ((c.toNat : Int) - 48) := by omega
    simp only [List.foldl_cons, extendVal] at *
    rw [ih (10 * n + (c.toNat - 48)) (fun d hd => hds d (List.mem_cons_of_mem c hd))]
    rw [hcast]

/-- C4: `ParseNumber` demands a digit at the current position (else error),
fails with -1 on any digit run whose decimal value exceeds `INT_MAX`, and
returns the (non-negative) decimal value with the index advanced past the
run otherwise. -/
theorem claim4_parseNumber_range (line : List Char) (idx : Nat) :
    (¬ (idx < line.length ∧ isdigit (at0 line idx) = true) →
      (ParseNumber line idx).1 = -1) ∧
    (idx < line.length → isdigit (at0 line idx) = true →
      (INT_MAX < (decimalVal (digitRun line idx) : Int) →
        (ParseNumber line idx).1 = -1) ∧
      ((decimalVal (digitRun line idx) : Int) ≤ INT_MAX →
        ParseNumber line idx =
          ((decimalVal (digitRun line idx) : Int),
           idx + (digitRun line idx).length))) := by
  constructor
  · intro hno
    simp only [ParseNumber]
    rcases Nat.lt_or_ge idx line.length with hlt | hge
    · have hnd : ¬ isdigit (at0 line idx) = true := fun hd => hno ⟨hlt, hd⟩
      simp [hnd, Nat.not_le.mpr hlt]
    · simp [hge]
  · intro hlt hdig
    have hrun : ∀ c ∈ digitRun line idx, isdigit c = true :=
      fun c hc => List.mem_takeWhile_imp hc
    have hval : ((decimalVal (digitRun line idx) : Nat) : Int) =
        extendVal 0 (digitRun line idx) := by
      simpa [decimalVal] using decimalVal_cast (digitRun line idx) 0 hrun
    have hspec := parseNumberLoop_spec (line.drop idx) 0 le_rfl
      (by simp [INT_MAX])
    have hdr : (line.drop idx).takeWhile isdigit = digitRun line idx := rfl
    rw [hdr] at hspec
    have hPN : ParseNumber line idx =
        ((parseNumberLoop (line.drop idx) 0).1,
         idx + (parseNumberLoop (line.drop idx) 0).2) := by
      simp only [ParseNumber]
      rw [if_neg (by omega), if_neg (by simp [hdig])]
    constructor
    · intro hbig
      rw [hval] at hbig
      rw [hPN]
      exact hspec.2 hbig
    · intro hle
      rw [hval] at hle
      rw [hPN, hspec.1 hle, hval]

/-- C4 witness: the run "99" is in range and scans to 99; checked through
the theorem at a concrete input. -/
theorem claim4_witness : ParseNumber ['9', '9'] 0 = (99, 2) := by
  have h := ((claim4_parseNumber_range ['9', '9'] 0).2 (by decide) (by decide)).2
    (by decide)
  rw [h]; decide

/-- C2: for Time values (fields in their normalized ranges), the comparison
operator `Time::operator<` agrees with comparison of presentation values. -/
theorem claim2_lt_iff_presentation_lt (a b : Time)
    (ha : a.normalized) (hb : b.normalized) :
    Time.lt a b = true ↔ a.presentation < b.presentation := by
  obtain ⟨ah, am, as_, ams⟩ := a
  obtain ⟨bh, bm, bs, bms⟩ := b
  obtain ⟨ha1, ha2, ha3, ha4, ha5, ha6, ha7⟩ := ha
  obtain ⟨hb1, hb2, hb3, hb4, hb5, hb6, hb7⟩ := hb
  simp only [Time.lt, Time.presentation] at *
  split_ifs <;> simp_all <;> omega

/-- C2 witness: a concrete normalized pair compared both ways. -/
theorem claim2_witness :
    Time.lt ⟨0, 0, 1, 999⟩ ⟨0, 0, 2, 0⟩ = true ↔
      Time.presentation ⟨0, 0, 1, 999⟩ < Time.presentation ⟨0, 0, 2, 0⟩ :=
  claim2_lt_iff_presentation_lt ⟨0, 0, 1, 999⟩ ⟨0, 0, 2, 0⟩
    (by constructor <;> simp [Time.normalized]) (by constructor <;> simp [Time.normalized])

/-- C3: for a Time with fields in their normalized ranges, rebuilding a Time
from `presentation(t)` via `Time::presentation(presentation_t)` yields `t`. -/
theorem claim3_presentation_roundtrip (t : Time) (h : t.normalized) :
    Time.fromPresentation t.presentation = t := by
  obtain ⟨th, tm, ts, tms⟩ := t
  obtain ⟨h1, h2, h3, h4, h5, h6, h7⟩ := h
  simp only [Time.presentation, Time.fromPresentation] at *
  split_ifs with hneg
  · exfalso; omega
  · simp only [Time.mk.injEq]
    refine ⟨?_, ?_, ?_, ?_⟩ <;> omega

/-- C3 witness: round-trip at a concrete normalized Time. -/
theorem claim3_witness :
    Time.fromPresentation (Time.presentation ⟨1, 2, 3, 4⟩) = ⟨1, 2, 3, 4⟩ :=
  claim3_presentation_roundtrip ⟨1, 2, 3, 4⟩
    (by constructor <;> simp [Time.normalized])

/-- C1 counterexample: the claim says the 1-3 digit group after the FULL
STOP is interpreted by digit count, so that the two-digit group "05" yields
50 milliseconds; but `ParseTime` on "0.05" succeeds with 500 milliseconds
(the code branches on the numeric value, and 5 < 10 selects the x100
scale). -/
theorem claim1_counterexample :
    (ParseTime ['0', '.', '0', '5'] 0 ⟨0, 0, 0, 0⟩).1 = 0 ∧
    (ParseTime ['0', '.', '0', '5'] 0 ⟨0, 0, 0, 0⟩).2.2.milliseconds = 500 ∧
    ¬ (ParseTime ['0', '.', '0', '5'] 0 ⟨0, 0, 0, 0⟩).2.2.milliseconds = 50 := by
  decide

/-- C1 (amended): the digit group after the FULL STOP is interpreted by its
numeric value, not its digit count: a value below 10 is multiplied by 100,
a value below 100 by 10, larger values are taken as-is, and a value >= 1000
is an error.  (This matches the digit-count reading only when the group has
no leading zero.) -/
theorem claim1_ms_value_scaling (line : List Char) (idx : Nat) (t : Time)
    (hdot : at0 line idx = '.')
    (hnn : 0 ≤ (ParseNumber line (idx + 1)).1) :
    ((ParseNumber line (idx + 1)).1 ≥ 1000 →
      (ParseTimeMS line idx t).1 = -1) ∧
    ((ParseNumber line (idx + 1)).1 < 1000 →
      (ParseTimeMS line idx t).2.2.milliseconds =
        (if (ParseNumber line (idx + 1)).1 < 10 then
          (ParseNumber line (idx + 1)).1 * 100
         else if (ParseNumber line (idx + 1)).1 < 100 then
          (ParseNumber line (idx + 1)).1 * 10
         else (ParseNumber line (idx + 1)).1)) := by
  simp only [ParseTimeMS, hdot]
  constructor
  · intro hbig
    split_ifs <;> simp_all
    all_goals omega
  · intro hsmall
    split_ifs <;> simp_all
    all_goals omega

/-- C1 amended-claim witness: the group "05" (value 5 < 10) yields 500
milliseconds, through the theorem at a concrete input. -/
theorem claim1_witness :
    (ParseTimeMS ['.', '0', '5'] 0 ⟨0, 0, 0, 0⟩).2.2.milliseconds = 500 := by
  have h := (claim1_ms_value_scaling ['.', '0', '5'] 0 ⟨0, 0, 0, 0⟩
    (by decide) (by decide)).2 (by decide)
  rw [h]; decide

theorem parseTimeMS_keeps_hms (line : List Char) (idx : Nat) (t : Time) :
    (ParseTimeMS line idx t).2.2.hours = t.hours ∧
    (ParseTimeMS line idx t).2.2.minutes = t.minutes ∧
    (ParseTimeMS line idx t).2.2.seconds = t.seconds := by
  simp only [ParseTimeMS]
  split_ifs <;> simp

theorem parseTimeMS_bounds (line : List Char) (idx : Nat) (t : Time)
    (hm0 : 0 ≤ t.minutes) (hm1 : t.minutes ≤ 59)
    (hs0 : 0 ≤ t.seconds) (hs1 : t.seconds ≤ 59) :
    0 ≤ (ParseTimeMS line idx t).2.2.minutes ∧
    (ParseTimeMS line idx t).2.2.minutes ≤ 59 ∧
    0 ≤ (ParseTimeMS line idx t).2.2.seconds ∧
    (ParseTimeMS line idx t).2.2.seconds ≤ 59 := by
  obtain ⟨eh, em, es⟩ := parseTimeMS_keeps_hms line idx t
  rw [em, es]
  exact ⟨hm0, hm1, hs0, hs1⟩

set_option maxHeartbeats 1600000 in
/-- C5: every Time produced by a successful ParseTime has minutes and
seconds in [0,59], whichever of the three surface syntaxes produced it;
and the seconds-only input "61" parses (from any prior Time value) to
0h 1m 1s 0ms. -/
theorem claim5_parseTime_minutes_seconds (line : List Char) (idx : Nat)
    (t0 : Time) (h : (ParseTime line idx t0).1 = 0) :
    (0 ≤ (ParseTime line idx t0).2.2.minutes ∧
     (ParseTime line idx t0).2.2.minutes ≤ 59 ∧
     0 ≤ (ParseTime line idx t0).2.2.seconds ∧
     (ParseTime line idx t0).2.2.seconds ≤ 59) ∧
    ParseTime ['6', '1'] 0 t0 = (0, 2, ⟨0, 1, 1, 0⟩) := by
  refine ⟨?_, rfl⟩
  simp only [ParseTime] at h ⊢
  split_ifs at h ⊢
  all_goals try (exfalso; simp only [Prod.fst] at h; omega)
  all_goals apply parseTimeMS_bounds <;> simp <;> omega

/-- C5 witness: the theorem applied to the concrete input "61". -/
theorem claim5_witness :
    (0 ≤ (ParseTime ['6', '1'] 0 ⟨0, 0, 0, 0⟩).2.2.minutes ∧
     (ParseTime ['6', '1'] 0 ⟨0, 0, 0, 0⟩).2.2.minutes ≤ 59 ∧
     0 ≤ (ParseTime ['6', '1'] 0 ⟨0, 0, 0, 0⟩).2.2.seconds ∧
     (ParseTime ['6', '1'] 0 ⟨0, 0, 0, 0⟩).2.2.seconds ≤ 59) ∧
    ParseTime ['6', '1'] 0 ⟨0, 0, 0, 0⟩ = (0, 2, ⟨0, 1, 1, 0⟩) :=
  claim5_parseTime_minutes_seconds ['6', '1'] 0 ⟨0, 0, 0, 0⟩ (by decide)

/-- C10: a NULL cue pointer makes `Parse` return -1 at once, with the
parser state (pushback buffer and pending input) untouched. -/
theorem claim10_null_cue (st : PState) : Parse st none = (-1, none, st) := rfl

/-- C7: `ParseBOM` pushes back a first character that does not open the
BOM and succeeds; consumes a full BOM and succeeds; and fails with -1
whenever the first byte matches but the second or third breaks the
match. -/
theorem claim7_parseBOM (c c2 c3 : Char) (s : List Char)
    (h1 : c ≠ Char.ofNat 0xEF) (h2 : c2 ≠ Char.ofNat 0xBB)
    (h3 : c3 ≠ Char.ofNat 0xBF) :
    ParseBOM ⟨none, c :: s⟩ = (0, ⟨some c, s⟩) ∧
    ParseBOM ⟨none, Char.ofNat 0xEF :: Char.ofNat 0xBB :: Char.ofNat 0xBF :: s⟩ =
      (0, ⟨none, s⟩) ∧
    (ParseBOM ⟨none, Char.ofNat 0xEF :: c2 :: s⟩).1 = -1 ∧
    (ParseBOM ⟨none, Char.ofNat 0xEF :: Char.ofNat 0xBB :: c3 :: s⟩).1 = -1 := by
  refine ⟨?_, ?_, ?_, ?_⟩ <;>
    simp [ParseBOM, GetChar, UngetChar, h1, h2, h3]

/-- C7 witness: the three behaviours at concrete streams. -/
theorem claim7_witness :
    ParseBOM ⟨none, ['W']⟩ = (0, ⟨some 'W', []⟩) ∧
    ParseBOM ⟨none, [Char.ofNat 0xEF, Char.ofNat 0xBB, Char.ofNat 0xBF]⟩ =
      (0, ⟨none, []⟩) ∧
    (ParseBOM ⟨none, [Char.ofNat 0xEF, 'X']⟩).1 = -1 ∧
    (ParseBOM ⟨none, [Char.ofNat 0xEF, Char.ofNat 0xBB, 'X']⟩).1 = -1 :=
  claim7_parseBOM 'W' 'X' 'X' [] (by decide) (by decide) (by decide)

theorem parseLineAux_eos (fuel : Nat) :
    ∀ (st : PState) (acc : List Char),
      (parseLineAux fuel st acc).1 = 1 →
      acc = [] ∧ parseLineAux fuel st acc = (1, [], st) ∧
      st.unget = none ∧ st.input = [] := by
  induction fuel with
  | zero => intro st acc h; simp [parseLineAux] at h
  | succ n ih =>
    intro st acc h
    obtain ⟨u, inp⟩ := st
    cases u with
    | some c =>
      simp only [parseLineAux, GetChar] at h ⊢
      by_cases hterm : c = kLF ∨ c = kCR
      · rw [if_pos hterm] at h ⊢
        split_ifs at h ⊢ with hr
        · exfalso; simp only [Prod.fst] at h; omega
        · exfalso; simp at h
      · rw [if_neg hterm] at h ⊢
        obtain ⟨ha, _, _, _⟩ := ih _ _ h
        exact absurd ha (by simp)
    | none =>
      cases inp with
      | nil =>
        simp only [parseLineAux, GetChar] at h ⊢
        by_cases hacc : acc.isEmpty
        · rw [List.isEmpty_iff] at hacc
          subst hacc
          exact ⟨rfl, by simp [parseLineAux, GetChar], by trivial, by trivial⟩
        · rw [if_neg hacc] at h
          exact absurd h (by simp)
      | cons c rest =>
        simp only [parseLineAux, GetChar] at h ⊢
        by_cases hterm : c = kLF ∨ c = kCR
        · rw [if_pos hterm] at h ⊢
          split_ifs at h ⊢ with hr
          · exfalso; simp only [Prod.fst] at h; omega
          · exfalso; simp at h
        · rw [if_neg hterm] at h ⊢
          obtain ⟨ha, _, _, _⟩ := ih _ _ h
          exact absurd ha (by simp)

theorem parseLine_eos (st : PState) (h : (ParseLine st).1 = 1) :
    ParseLine st = (1, [], st) ∧ st.unget = none ∧ st.input = [] := by
  obtain ⟨-, hres, hu, hi⟩ := parseLineAux_eos (csize st + 1) st [] h
  exact ⟨hres, hu, hi⟩

theorem parseLineAux_no_term (s : List Char) :
    ∀ (fuel : Nat) (acc : List Char), s.length < fuel →
      (∀ c ∈ s, ¬ (c = kLF ∨ c = kCR)) →
      parseLineAux fuel ⟨none, s⟩ acc =
        (if (acc ++ s).isEmpty then 1 else 0, acc ++ s, ⟨none, []⟩) := by
  induction s with
  | nil =>
    intro fuel acc hf _
    cases fuel with
    | zero => omega
    | succ n => simp [parseLineAux, GetChar]
  | cons c rest ih =>
    intro fuel acc hf hs
    cases fuel with
    | zero => omega
    | succ n =>
      have hc : ¬ (c = kLF ∨ c = kCR) := hs c (List.mem_cons_self c rest)
      have hrest : ∀ x ∈ rest, ¬ (x = kLF ∨ x = kCR) :=
        fun x hx => hs x (List.mem_cons_of_mem c hx)
      simp only [parseLineAux, GetChar]
      rw [if_neg hc, ih n (acc ++ [c]) (by simp at hf ⊢; omega) hrest]
      simp

/-- C8: `ParseLine` returns the end-of-stream signal (1) only with an
empty accumulated line, on an exhausted state; end-of-stream reached
after at least one character was read (a non-empty terminator-free
stream) yields status 0 with the accumulated line. -/
theorem claim8_parseLine_eos (st : PState) (s : List Char) :
    ((ParseLine st).1 = 1 →
      (ParseLine st).2.1 = [] ∧ st.unget = none ∧ st.input = []) ∧
    (s ≠ [] → (∀ c ∈ s, ¬ (c = kLF ∨ c = kCR)) →
      ParseLine ⟨none, s⟩ = (0, s, ⟨none, []⟩)) := by
  constructor
  · intro h
    obtain ⟨hres, hu, hi⟩ := parseLine_eos st h
    exact ⟨by rw [hres], hu, hi⟩
  · intro hne hnt
    have hrw := parseLineAux_no_term s (csize ⟨none, s⟩ + 1) []
      (by simp [csize]) hnt
    rw [ParseLine, hrw]
    simp [hne]

/-- C8 witness: a one-character stream without terminator, through the
theorem. -/
theorem claim8_witness :
    ParseLine ⟨none, ['a']⟩ = (0, ['a'], ⟨none, []⟩) :=
  (claim8_parseLine_eos ⟨none, ['a']⟩ ['a']).2 (by decide) (by decide)

theorem parseLineTerminator_blank (a : Char) (l : List Char)
    (ha : a = kLF ∨ a = kCR) (hl : ∀ c ∈ l, c = kLF ∨ c = kCR) :
    ∃ st2 : PState, ParseLineTerminator a ⟨none, l⟩ = (0, st2) ∧
      csize st2 ≤ l.length ∧ blankOnly st2 := by
  rcases ha with ha | ha
  · exact ⟨⟨none, l⟩, by simp [ParseLineTerminator, ha], by simp [csize],
      ⟨hl, by simp⟩⟩
  · subst ha
    cases l with
    | nil =>
      refine ⟨⟨none, []⟩, ?_, by simp [csize], by simp [blankOnly]⟩
      simp [ParseLineTerminator, kLF, kCR, GetChar]
    | cons c1 rest =>
      have hrest : ∀ c ∈ rest, c = kLF ∨ c = kCR :=
        fun c hc => hl c (List.mem_cons_of_mem c1 hc)
      rcases hl c1 (List.mem_cons_self c1 rest) with hc1 | hc1
      · refine ⟨⟨none, rest⟩, ?_, by simp [csize], ⟨hrest, by simp⟩⟩
        simp [ParseLineTerminator, kLF, kCR, GetChar, hc1]
      · refine ⟨⟨some kCR, rest⟩, ?_, by simp [csize], ⟨hrest, ?_⟩⟩
        · subst hc1
          simp [ParseLineTerminator, kLF, kCR, GetChar, UngetChar]
        · intro c hc
          simp only [Option.some.injEq] at hc
          subst hc
          right
          rfl

theorem parseLine_blankOnly (st : PState) (h : blankOnly st) :
    (csize st = 0 → ParseLine st = (1, [], st)) ∧
    (0 < csize st → ∃ st', ParseLine st = (0, [], st') ∧ blankOnly st' ∧
      csize st' < csize st) := by
  obtain ⟨u, inp⟩ := st
  cases u with
  | none =>
    cases inp with
    | nil =>
      exact ⟨fun _ => rfl, fun h0 => absurd h0 (by simp [csize])⟩
    | cons a rest =>
      refine ⟨fun h0 => absurd h0 (by simp [csize]), fun _ => ?_⟩
      have ha := h.1 a (List.mem_cons_self a rest)
      have hrest : ∀ c ∈ rest, c = kLF ∨ c = kCR :=
        fun c hc => h.1 c (List.mem_cons_of_mem a hc)
      obtain ⟨st2, hterm, hcs, hblank⟩ :=
        parseLineTerminator_blank a rest ha hrest
      refine ⟨st2, ?_, hblank, ?_⟩
      · simp only [ParseLine, csize, parseLineAux, GetChar, List.length_cons]
        rw [if_pos ha, hterm]
        simp
      · have hc1 : csize (⟨none, a :: rest⟩ : PState) = rest.length + 1 := by
          simp [csize]
        omega
  | some a =>
    refine ⟨fun h0 => absurd h0 (by simp [csize]), fun _ => ?_⟩
    have ha := h.2 a rfl
    obtain ⟨st2, hterm, hcs, hblank⟩ := parseLineTerminator_blank a inp ha h.1
    refine ⟨st2, ?_, hblank, ?_⟩
    · simp only [ParseLine, csize, parseLineAux, GetChar]
      rw [if_pos ha, hterm]
      simp
    · have hc1 : csize (⟨some a, inp⟩ : PState) = inp.length + 1 := by
        simp [csize]
      omega

theorem skipBlankAux_blankOnly (fuel : Nat) :
    ∀ st : PState, csize st < fuel → blankOnly st →
      skipBlankAux fuel st = (1, [], ⟨none, []⟩) := by
  induction fuel with
  | zero => intro st h _; omega
  | succ n ih =>
    intro st hlt hb
    rcases Nat.eq_zero_or_pos (csize st) with h0 | hpos
    · have h1 := (parseLine_blankOnly st hb).1 h0
      have hst : st = ⟨none, []⟩ := by
        obtain ⟨u, inp⟩ := st
        cases u <;> cases inp <;> simp_all [csize]
      rw [hst] at h1 ⊢
      simp [skipBlankAux, h1]
    · obtain ⟨st', hpl, hb', hlt'⟩ := (parseLine_blankOnly st hb).2 hpos
      have hstep : skipBlankAux (n + 1) st = skipBlankAux n st' := by
        simp [skipBlankAux, hpl]
      rw [hstep]
      exact ih st' (by omega) hb'

/-- C9: on a stream consisting only of blank lines, `Parse` returns the
end-of-stream signal (1, not an error) with the passed-in cue record
unchanged, and a repeated call on the resulting exhausted state keeps
returning end-of-stream with the cue again unchanged. -/
theorem claim9_parse_blank_stream (cue : Cue) (s : List Char)
    (hs : ∀ c ∈ s, c = kLF ∨ c = kCR) :
    Parse ⟨none, s⟩ (some cue) = (1, some cue, ⟨none, []⟩) ∧
    Parse ⟨none, []⟩ (some cue) = (1, some cue, ⟨none, []⟩) := by
  have hgen : ∀ l : List Char, (∀ c ∈ l, c = kLF ∨ c = kCR) →
      Parse ⟨none, l⟩ (some cue) = (1, some cue, ⟨none, []⟩) := by
    intro l hl
    have hb : blankOnly ⟨none, l⟩ := ⟨hl, by simp⟩
    have hskip : skipBlankLines ⟨none, l⟩ = (1, [], ⟨none, []⟩) :=
      skipBlankAux_blankOnly (csize ⟨none, l⟩ + 1) ⟨none, l⟩ (by omega) hb
    simp [Parse, parseTimingsPhase, hskip]
  exact ⟨hgen s hs, hgen [] (by simp)⟩

/-- C9 witness: a concrete stream of blank lines (LF, CR, CR LF) and a
concrete cue, through the theorem. -/
theorem claim9_witness :
    Parse ⟨none, [kLF, kCR, kCR, kLF]⟩
        (some ⟨['i'], ⟨1, 2, 3, 4⟩, ⟨5, 6, 7, 8⟩, [⟨['n'], ['v']⟩], [['p']]⟩) =
      (1, some ⟨['i'], ⟨1, 2, 3, 4⟩, ⟨5, 6, 7, 8⟩, [⟨['n'], ['v']⟩], [['p']]⟩,
       ⟨none, []⟩) ∧
    Parse ⟨none, []⟩
        (some ⟨['i'], ⟨1, 2, 3, 4⟩, ⟨5, 6, 7, 8⟩, [⟨['n'], ['v']⟩], [['p']]⟩) =
      (1, some ⟨['i'], ⟨1, 2, 3, 4⟩, ⟨5, 6, 7, 8⟩, [⟨['n'], ['v']⟩], [['p']]⟩,
       ⟨none, []⟩) :=
  claim9_parse_blank_stream
    ⟨['i'], ⟨1, 2, 3, 4⟩, ⟨5, 6, 7, 8⟩, [⟨['n'], ['v']⟩], [['p']]⟩
    [kLF, kCR, kCR, kLF] (by decide)

/-- C6: whenever the pre-payload phase of `Parse` (blank-line skipping,
identifier resolution and a successful timings line) hands over to the
payload phase and the very first payload line is empty or end-of-stream
is reached, `Parse` returns an error (-1). -/
theorem claim6_empty_payload_error (st : PState) (cue cue1 : Cue)
    (st1 : PState)
    (hphase : parseTimingsPhase st cue = Sum.inr (cue1, st1))
    (hfirst : (ParseLine st1).1 = 1 ∨
      ((ParseLine st1).1 = 0 ∧ (ParseLine st1).2.1 = [])) :
    (Parse st (some cue)).1 = -1 := by
  have hl : (ParseLine st1).2.1 = [] := by
    rcases hfirst with h1 | ⟨_, hl⟩
    · rw [(parseLine_eos st1 h1).1]
    · exact hl
  have he : ¬ (ParseLine st1).1 < 0 := by
    rcases hfirst with h1 | ⟨h0, _⟩ <;> omega
  have hpay : payloadAux (csize st1 + 1) st1 [] =
      (0, [], (ParseLine st1).2.2) := by
    simp only [payloadAux]
    rw [if_neg he, if_pos (by simp [hl])]
  simp only [Parse, hphase]
  simp only [parsePayloadPhase]
  rw [hpay]
  simp

/-- C6 witness: the cue block "0 --> 1" followed by end-of-stream has a
valid timings line and no payload line; `Parse` rejects it, through the
theorem at a concrete input. -/
theorem claim6_witness :
    (Parse ⟨none, ['0', ' ', '-', '-', '>', ' ', '1', kLF]⟩
      (some ⟨[], ⟨0, 0, 0, 0⟩, ⟨0, 0, 0, 0⟩, [], []⟩)).1 = -1 :=
  claim6_empty_payload_error ⟨none, ['0', ' ', '-', '-', '>', ' ', '1', kLF]⟩
    ⟨[], ⟨0, 0, 0, 0⟩, ⟨0, 0, 0, 0⟩, [], []⟩
    ⟨[], ⟨0, 0, 0, 0⟩, ⟨0, 0, 1, 0⟩, [], []⟩
    ⟨none, []⟩ (by decide) (Or.inl (by decide))

end Libwebvtt
